import Mathlib

/-!
Shallow embedding of the smol-EVM resource-accounting core
(`src/evm/stack.rs`, `src/evm/memory.rs`, `src/evm/gas.rs`), together with
theorems settling the specification claims about it.

Machine integers (`u8`, `u64`, `usize`, `U256`) are modelled as `Nat`.
Where a Rust arithmetic operation can overflow its machine width, the
embedding reduces explicitly modulo `2 ^ 64` (for `u64`/`usize`) — Rust
release builds wrap on overflow, which is the semantics modelled here
(debug builds would panic instead).  `U256` operations are modelled with
`Nat` bitwise operations; the 256-bit complement in `write_byte`'s mask is
written out as XOR against `2 ^ 256 - 1`, exactly as `!` behaves on `U256`.
-/

/-- Number of distinct `u64` / `usize` values; Rust unchecked `u64`/`usize`
arithmetic wraps modulo this in release builds. -/
def U64_SIZE : Nat := 2 ^ 64

/-- Number of distinct `U256` values. -/
def U256_SIZE : Nat := 2 ^ 256

/-! ## Stack (`src/evm/stack.rs`) -/

/-- `STACK_MAX_SIZE` from `stack.rs`: the maximum number of stack elements. -/
def STACK_MAX_SIZE : Nat := 1024

/-- `StackError` from `stack.rs`. -/
inductive StackError where
  | Overflow
  | Underflow
deriving DecidableEq

/-- The EVM stack (`struct Stack`).  The `Vec` top (its last element) is
modelled as the head of the list, so `push`/`pop` act on the head. -/
structure Stack where
  stack : List Nat
deriving DecidableEq

/-- `Stack::new`. -/
def Stack.new : Stack := ⟨[]⟩

/-- `Stack::len`. -/
def Stack.len (s : Stack) : Nat := s.stack.length

/-- `Stack::push`.  Mirrors `&mut self` + `Result<(), StackError>` by
returning the post-state paired with the result; the error branch performs
no mutation, as in the source. -/
def Stack.push (s : Stack) (value : Nat) : Stack × Except StackError Unit :=
  if s.stack.length ≥ STACK_MAX_SIZE then (s, .error .Overflow)
  else (⟨value :: s.stack⟩, .ok ())

/-- `Stack::pop`: `self.stack.pop().ok_or(StackError::Underflow)`. -/
def Stack.pop (s : Stack) : Stack × Except StackError Nat :=
  match s.stack with
  | [] => (s, .error .Underflow)
  | v :: rest => (⟨rest⟩, .ok v)

/-- A stack operation issued by a caller (for stating claims over
operation sequences). -/
inductive StackOp where
  | push (v : Nat)
  | pop

/-- Run a sequence of stack operations, counting successful pushes and
successful pops: returns (final stack, #ok pushes, #ok pops).  Failed
operations leave the stack as the source functions do and are not
counted. -/
def runStackOps : Stack → List StackOp → Stack × Nat × Nat
  | s, [] => (s, 0, 0)
  | s, StackOp.push v :: rest =>
    match s.push v with
    | (s', Except.ok _) =>
      let r := runStackOps s' rest
      (r.1, r.2.1 + 1, r.2.2)
    | (s', Except.error _) => runStackOps s' rest
  | s, StackOp.pop :: rest =>
    match s.pop with
    | (s', Except.ok _) =>
      let r := runStackOps s' rest
      (r.1, r.2.1, r.2.2 + 1)
    | (s', Except.error _) => runStackOps s' rest

/-! ## Memory (`src/evm/memory.rs`) -/

/-- `MEMORY_MAX_SIZE` from `memory.rs`: declared (by its doc comment) as
"the maximum number of words", but compared against *byte* addresses and
byte sizes by `write_byte`, `write_word` and `expand` below, exactly as in
the source. -/
def MEMORY_MAX_SIZE : Nat := 1024 * 1024

/-- `MemoryError` from `memory.rs`. -/
inductive MemoryError where
  | OutOfBounds
  | ExpansionLimit
  | InvalidAddress
deriving DecidableEq

/-- The EVM memory (`struct Memory`): a vector of `U256` words plus the
current size in bytes. -/
structure Memory where
  memory : List Nat
  size : Nat
deriving DecidableEq

/-- `Memory::new`. -/
def Memory.new : Memory := ⟨[], 0⟩

/-- Byte extraction used by `Memory::read_byte`:
`(word >> (8 * byte_offset)) & 0xff` (the `as_limbs()[0] as u8` conversion
is lossless after the `0xff` mask). -/
def byteGet (word k : Nat) : Nat := (word >>> (8 * k)) &&& 255

/-- Byte insertion used by `Memory::write_byte`:
`mask = !(0xff << (8 * byte_offset))`, `(word & mask) | (value << (8 * byte_offset))`.
`U256` complement is XOR against `2 ^ 256 - 1`. -/
def byteSet (word k value : Nat) : Nat :=
  (word &&& ((U256_SIZE - 1) ^^^ (255 <<< (8 * k)))) ||| (value <<< (8 * k))

/-- `Memory::read_byte`. -/
def Memory.read_byte (m : Memory) (address : Nat) : Except MemoryError Nat :=
  if address ≥ m.size then .error .OutOfBounds
  else
    let word_index := address / 32
    let byte_offset := address % 32
    if word_index ≥ m.memory.length then .error .OutOfBounds
    else .ok (byteGet (m.memory.getD word_index 0) byte_offset)

/-- `Memory::write_byte`.  `Vec::resize(word_index + 1, U256::ZERO)` under
the guard `word_index >= len` appends zero words; the final `if` mirrors
`if new_size > self.size { self.size = new_size; }`. -/
def Memory.write_byte (m : Memory) (address value : Nat) :
    Except MemoryError Memory :=
  if address ≥ MEMORY_MAX_SIZE then .error .OutOfBounds
  else
    let word_index := address / 32
    let byte_offset := address % 32
    let mem :=
      if word_index ≥ m.memory.length then
        m.memory ++ List.replicate (word_index + 1 - m.memory.length) 0
      else m.memory
    let word := mem.getD word_index 0
    let mem' := mem.set word_index (byteSet word byte_offset value)
    .ok ⟨mem', if address + 1 > m.size then address + 1 else m.size⟩

/-- `Memory::read_word`. -/
def Memory.read_word (m : Memory) (address : Nat) : Except MemoryError Nat :=
  if address ≥ m.size then .error .OutOfBounds
  else if address % 32 ≠ 0 then .error .InvalidAddress
  else
    let word_index := address / 32
    if word_index ≥ m.memory.length then .error .OutOfBounds
    else .ok (m.memory.getD word_index 0)

/-- `Memory::write_word`. -/
def Memory.write_word (m : Memory) (address value : Nat) :
    Except MemoryError Memory :=
  if address ≥ MEMORY_MAX_SIZE then .error .OutOfBounds
  else if address % 32 ≠ 0 then .error .InvalidAddress
  else
    let word_index := address / 32
    let mem :=
      if word_index ≥ m.memory.length then
        m.memory ++ List.replicate (word_index + 1 - m.memory.length) 0
      else m.memory
    let mem' := mem.set word_index value
    .ok ⟨mem', if address + 32 > m.size then address + 32 else m.size⟩

/-- `Memory::expand`. -/
def Memory.expand (m : Memory) (new_size : Nat) : Except MemoryError Memory :=
  if new_size > MEMORY_MAX_SIZE then .error .ExpansionLimit
  else
    let new_word_len := (new_size + 31) / 32
    let mem :=
      if new_word_len > m.memory.length then
        m.memory ++ List.replicate (new_word_len - m.memory.length) 0
      else m.memory
    .ok ⟨mem, if new_size > m.size then new_size else m.size⟩

/-- `Memory::gas_cost`: `a = (size + 31) / 32` in `usize` (which can wrap,
hence the explicit modulus) and `3 * a + (a * a) / 512` in `u64` — the
squaring can wrap, while with `a < 2 ^ 59` the remaining products and the
sum cannot. -/
def Memory.gas_cost (m : Memory) : Nat :=
  let a := ((m.size + 31) % U64_SIZE) / 32
  3 * a + ((a * a) % U64_SIZE) / 512

/-! ## Gas metering (`src/evm/gas.rs`) -/

/-- `GasError` from `gas.rs`. -/
inductive GasError where
  | OutOfGas
  | GasLimitExceeded
  | InvalidGasAmount
deriving DecidableEq

/-- `struct GasMeter`.  All five fields are `u64`/`usize` in the source. -/
structure GasMeter where
  gas_used : Nat
  gas_limit : Nat
  gas_refund : Nat
  memory_gas_cost : Nat
  previous_memory_size : Nat
deriving DecidableEq

/-- `GasMeter::new`. -/
def GasMeter.new (gas_limit : Nat) : GasMeter := ⟨0, gas_limit, 0, 0, 0⟩

/-- `GasMeter::consume_gas`.  The guard computes `self.gas_used + amount`
with unchecked `u64` addition, which wraps modulo `2 ^ 64` in release
builds; the wrapped sum is compared against `gas_limit` and, on success,
stored by `self.gas_used += amount`.  Returns post-state and result,
mirroring `&mut self` + `Result<(), GasError>`. -/
def GasMeter.consume_gas (g : GasMeter) (amount : Nat) :
    GasMeter × Except GasError Unit :=
  if (g.gas_used + amount) % U64_SIZE > g.gas_limit then
    (g, .error .GasLimitExceeded)
  else ({ g with gas_used := (g.gas_used + amount) % U64_SIZE }, .ok ())

/-- `GasMeter::effective_gas_used`: `gas_used.saturating_sub(gas_refund)`;
on `Nat`, truncating subtraction is exactly saturating subtraction. -/
def GasMeter.effective_gas_used (g : GasMeter) : Nat :=
  g.gas_used - g.gas_refund

/-- `GasMeter::memory_expansion_cost` (a `&self` method in the source that
never reads `self`).  Word counts are computed in `usize` and squared in
`usize` — both can wrap, hence the explicit moduli; `saturating_sub` on
the final costs is `Nat` subtraction. -/
def GasMeter.memory_expansion_cost (old_size new_size : Nat) : Nat :=
  if new_size ≤ old_size then 0
  else
    let old_words := ((old_size + 31) % U64_SIZE) / 32
    let new_words := ((new_size + 31) % U64_SIZE) / 32
    let old_cost := 3 * old_words + ((old_words * old_words) % U64_SIZE) / 512
    let new_cost := 3 * new_words + ((new_words * new_words) % U64_SIZE) / 512
    new_cost - old_cost

/-- `GasMeter::update_memory_cost`.  On a `consume_gas` failure the `?`
operator returns early: `memory_gas_cost` and `previous_memory_size` are
left untouched. -/
def GasMeter.update_memory_cost (g : GasMeter) (memory : Memory) :
    GasMeter × Except GasError Unit :=
  let current_memory_size := memory.size
  let expansion_cost :=
    GasMeter.memory_expansion_cost g.previous_memory_size current_memory_size
  if expansion_cost > 0 then
    match g.consume_gas expansion_cost with
    | (g', Except.ok _) =>
      ({ g' with
          memory_gas_cost := (g'.memory_gas_cost + expansion_cost) % U64_SIZE,
          previous_memory_size := current_memory_size }, .ok ())
    | (g', Except.error e) => (g', .error e)
  else ({ g with previous_memory_size := current_memory_size }, .ok ())

/-- `GasMeter::calculate_sstore_cost` (EIP-2200 pricing; the constants are
`SLOAD_GAS = 800`, `SSTORE_SET_GAS = 20000`, `SSTORE_RESET_GAS = 5000`).
`U256` values are compared only for equality and against zero, so plain
`Nat` parameters are a faithful model.  `GasMeter::dynamic_gas_cost`
dispatches its `Sstore` arm directly to this function. -/
def GasMeter.calculate_sstore_cost
    (current_value original_value new_value : Nat) : Nat :=
  if new_value = current_value then 800
  else if original_value = current_value then
    if original_value = 0 then 20000 else 5000
  else 800

/-! ## Derived state used by concrete claim instances -/

/-- The memory obtained by writing byte `0x42` at address 1000 of a fresh
memory (the end-to-end scenario of the spec's §8). -/
def mem1000 : Memory :=
  match Memory.write_byte Memory.new 1000 66 with
  | .ok m => m
  | .error _ => Memory.new

/-- Modelled from the spec (§4.2 cost formula, used only to compare the
code's wrapped computation against the ideal formula): for byte size `s`,
`C(ceil(s/32)) = 3 * a + a ^ 2 / 512` with exact (unbounded) arithmetic. -/
def specMemCost (s : Nat) : Nat :=
  3 * ((s + 31) / 32) + ((s + 31) / 32) * ((s + 31) / 32) / 512

/-- Fold `consume_gas` over a list of charge amounts, keeping the meter
state each call leaves behind (failed charges leave it unchanged). -/
def runCharges (g : GasMeter) (amounts : List Nat) : GasMeter :=
  amounts.foldl (fun g a => (g.consume_gas a).1) g

/-- The internal representation invariant of `Memory` stated in the claim:
the word vector always covers the logical byte size. -/
def Memory.sizeInv (m : Memory) : Prop := m.size ≤ 32 * m.memory.length

/-- All bytes at addresses at or beyond the logical size read as zero
(the sense in which grown memory is zero-filled). -/
def Memory.zeroAbove (m : Memory) : Prop :=
  ∀ a, m.size ≤ a → byteGet (m.memory.getD (a / 32) 0) (a % 32) = 0

/-! ## Bit-level lemmas about `byteGet` / `byteSet` -/

theorem land255_eq_mod (x : Nat) : x &&& 255 = x % 256 := by
  have h255 : (255 : Nat) = 2 ^ 8 - 1 := rfl
  have h256 : (256 : Nat) = 2 ^ 8 := rfl
  apply Nat.eq_of_testBit_eq
  intro i
  rw [Nat.testBit_land, h255, Nat.testBit_two_pow_sub_one, h256,
    Nat.testBit_mod_two_pow]
  exact Bool.and_comm _ _

theorem byteGet_eq_div_mod (w k : Nat) : byteGet w k = w / 2 ^ (8 * k) % 256 := by
  rw [byteGet, land255_eq_mod, Nat.shiftRight_eq_div_pow]

theorem byteGet_zero (k : Nat) : byteGet 0 k = 0 := by
  simp [byteGet]

theorem testBit_byteSet (w k v t : Nat) (hv : v < 256) (hk : k < 32) :
    (byteSet w k v).testBit t =
      if 8 * k ≤ t ∧ t < 8 * k + 8 then v.testBit (t - 8 * k)
      else (w.testBit t && decide (t < 256)) := by
  have h255 : (255 : Nat) = 2 ^ 8 - 1 := rfl
  have h256 : U256_SIZE = 2 ^ 256 := rfl
  rw [byteSet, Nat.testBit_lor, Nat.testBit_land, Nat.testBit_xor, h256,
    Nat.testBit_two_pow_sub_one, Nat.testBit_shiftLeft, Nat.testBit_shiftLeft,
    h255, Nat.testBit_two_pow_sub_one]
  by_cases hin : 8 * k ≤ t ∧ t < 8 * k + 8
  · rw [if_pos hin]
    have h1 : t < 256 := by omega
    have h2 : t - 8 * k < 8 := by omega
    simp [hin.1, h1, h2]
  · rw [if_neg hin]
    by_cases ht : t < 256
    · by_cases hle : 8 * k ≤ t
      · have h8 : ¬ t - 8 * k < 8 := by omega
        have hv8 : v.testBit (t - 8 * k) = false :=
          Nat.testBit_lt_two_pow (lt_of_lt_of_le hv
            (by
              calc (256 : Nat) = 2 ^ 8 := rfl
                _ ≤ 2 ^ (t - 8 * k) :=
                  Nat.pow_le_pow_right (by norm_num) (by omega)))
        simp [hle, ht, h8, hv8]
      · simp [hle, ht]
    · have hle : 8 * k ≤ t := by omega
      have h8 : ¬ t - 8 * k < 8 := by omega
      have hv8 : v.testBit (t - 8 * k) = false :=
        Nat.testBit_lt_two_pow (lt_of_lt_of_le hv
          (by
            calc (256 : Nat) = 2 ^ 8 := rfl
              _ ≤ 2 ^ (t - 8 * k) :=
                Nat.pow_le_pow_right (by norm_num) (by omega)))
      simp [hle, ht, h8, hv8]

theorem byteGet_byteSet_self (w k v : Nat) (hv : v < 256) (hk : k < 32) :
    byteGet (byteSet w k v) k = v := by
  have h255 : (255 : Nat) = 2 ^ 8 - 1 := rfl
  apply Nat.eq_of_testBit_eq
  intro i
  rw [byteGet, Nat.testBit_land, Nat.testBit_shiftRight, h255,
    Nat.testBit_two_pow_sub_one, testBit_byteSet w k v _ hv hk]
  by_cases hi : i < 8
  · rw [if_pos (by omega)]
    have h : 8 * k + i - 8 * k = i := by omega
    simp [h, hi]
  · rw [if_neg (by omega)]
    have hv8 : v.testBit i = false :=
      Nat.testBit_lt_two_pow (lt_of_lt_of_le hv
        (by
          calc (256 : Nat) = 2 ^ 8 := rfl
            _ ≤ 2 ^ i := Nat.pow_le_pow_right (by norm_num) (by omega)))
    simp [hi, hv8]

theorem byteGet_byteSet_ne (w k v j : Nat) (hv : v < 256) (hk : k < 32)
    (hj : j < 32) (hne : j ≠ k) :
    byteGet (byteSet w k v) j = byteGet w j := by
  have h255 : (255 : Nat) = 2 ^ 8 - 1 := rfl
  apply Nat.eq_of_testBit_eq
  intro i
  rw [byteGet, byteGet, Nat.testBit_land, Nat.testBit_land,
    Nat.testBit_shiftRight, Nat.testBit_shiftRight, h255,
    Nat.testBit_two_pow_sub_one, testBit_byteSet w k v _ hv hk]
  by_cases hi : i < 8
  · rw [if_neg (by omega)]
    have h : 8 * j + i < 256 := by omega
    simp [h]
  · simp [hi]

/-! ## List-level lemmas about the word vector -/

theorem getD_append_replicate (l : List Nat) (n i : Nat) :
    (l ++ List.replicate n 0).getD i 0 = l.getD i 0 := by
  simp only [List.getD_eq_getElem?_getD, List.getElem?_append,
    List.getElem?_replicate]
  split
  · rfl
  · rw [List.getElem?_eq_none (by omega)]
    split <;> rfl

theorem getD_set_self (l : List Nat) (i x : Nat) (h : i < l.length) :
    (l.set i x).getD i 0 = x := by
  simp [List.getD_eq_getElem?_getD, List.getElem?_set_self h]

theorem getD_set_ne (l : List Nat) {i j : Nat} (x : Nat) (h : i ≠ j) :
    (l.set i x).getD j 0 = l.getD j 0 := by
  simp [List.getD_eq_getElem?_getD, List.getElem?_set_ne h]

theorem grow_getD (l : List Nat) (n i : Nat) :
    (if n ≥ l.length then l ++ List.replicate (n + 1 - l.length) 0
     else l).getD i 0 = l.getD i 0 := by
  split
  · exact getD_append_replicate ..
  · rfl

theorem grow_length (l : List Nat) (n : Nat) :
    (if n ≥ l.length then l ++ List.replicate (n + 1 - l.length) 0
     else l).length = max l.length (n + 1) := by
  split <;> simp <;> omega

/-! ## Inversion lemmas for the memory operations -/

theorem write_byte_bound {m m' : Memory} {a v : Nat}
    (h : m.write_byte a v = .ok m') : a < MEMORY_MAX_SIZE := by
  by_contra hb
  unfold Memory.write_byte at h
  rw [if_pos (by omega)] at h
  exact Except.noConfusion h

theorem write_byte_eq (m : Memory) (a v : Nat) (hb : a < MEMORY_MAX_SIZE) :
    m.write_byte a v =
      .ok ⟨(if a / 32 ≥ m.memory.length then
              m.memory ++ List.replicate (a / 32 + 1 - m.memory.length) 0
            else m.memory).set (a / 32)
             (byteSet ((if a / 32 ≥ m.memory.length then
                 m.memory ++ List.replicate (a / 32 + 1 - m.memory.length) 0
               else m.memory).getD (a / 32) 0) (a % 32) v),
           if a + 1 > m.size then a + 1 else m.size⟩ := by
  unfold Memory.write_byte
  rw [if_neg (by omega)]

theorem write_byte_inv {m m' : Memory} {a v : Nat}
    (h : m.write_byte a v = .ok m') :
    a < MEMORY_MAX_SIZE ∧
    m'.size = max m.size (a + 1) ∧
    m'.memory.length = max m.memory.length (a / 32 + 1) ∧
    ∀ j, m'.memory.getD j 0 =
      if j = a / 32 then byteSet (m.memory.getD (a / 32) 0) (a % 32) v
      else m.memory.getD j 0 := by
  have hb := write_byte_bound h
  rw [write_byte_eq m a v hb] at h
  have hm' := (Except.ok.inj h).symm
  subst hm'
  refine ⟨hb, ?_, by rw [List.length_set, grow_length], ?_⟩
  · show (if a + 1 > m.size then a + 1 else m.size) = max m.size (a + 1)
    rw [Nat.max_def]
    split <;> split <;> omega
  intro j
  rw [grow_getD]
  by_cases hj : j = a / 32
  · subst hj
    rw [if_pos rfl, getD_set_self]
    rw [grow_length]
    omega
  · rw [if_neg hj, getD_set_ne _ _ (fun hh => hj hh.symm), grow_getD]

theorem write_word_bound {m m' : Memory} {a v : Nat}
    (h : m.write_word a v = .ok m') : a < MEMORY_MAX_SIZE ∧ a % 32 = 0 := by
  unfold Memory.write_word at h
  by_cases hb : a ≥ MEMORY_MAX_SIZE
  · rw [if_pos hb] at h
    exact Except.noConfusion h
  · rw [if_neg hb] at h
    by_cases ha : a % 32 ≠ 0
    · rw [if_pos ha] at h
      exact Except.noConfusion h
    · exact ⟨by omega, by omega⟩

theorem write_word_eq (m : Memory) (a v : Nat) (hb : a < MEMORY_MAX_SIZE)
    (ha : a % 32 = 0) :
    m.write_word a v =
      .ok ⟨(if a / 32 ≥ m.memory.length then
              m.memory ++ List.replicate (a / 32 + 1 - m.memory.length) 0
            else m.memory).set (a / 32) v,
           if a + 32 > m.size then a + 32 else m.size⟩ := by
  unfold Memory.write_word
  rw [if_neg (by omega), if_neg (by omega)]

theorem write_word_inv {m m' : Memory} {a v : Nat}
    (h : m.write_word a v = .ok m') :
    a < MEMORY_MAX_SIZE ∧ a % 32 = 0 ∧
    m'.size = max m.size (a + 32) ∧
    m'.memory.length = max m.memory.length (a / 32 + 1) ∧
    ∀ j, m'.memory.getD j 0 =
      if j = a / 32 then v else m.memory.getD j 0 := by
  obtain ⟨hb, ha⟩ := write_word_bound h
  rw [write_word_eq m a v hb ha] at h
  have hm' := (Except.ok.inj h).symm
  subst hm'
  refine ⟨hb, ha, ?_, by rw [List.length_set, grow_length], ?_⟩
  · show (if a + 32 > m.size then a + 32 else m.size) = max m.size (a + 32)
    rw [Nat.max_def]
    split <;> split <;> omega
  intro j
  by_cases hj : j = a / 32
  · subst hj
    rw [if_pos rfl, getD_set_self]
    rw [grow_length]
    omega
  · rw [if_neg hj, getD_set_ne _ _ (fun hh => hj hh.symm), grow_getD]

theorem expand_bound {m m' : Memory} {n : Nat}
    (h : m.expand n = .ok m') : n ≤ MEMORY_MAX_SIZE := by
  by_contra hb
  unfold Memory.expand at h
  rw [if_pos (by omega)] at h
  exact Except.noConfusion h

theorem expand_eq (m : Memory) (n : Nat) (hb : n ≤ MEMORY_MAX_SIZE) :
    m.expand n =
      .ok ⟨if (n + 31) / 32 > m.memory.length then
             m.memory ++ List.replicate ((n + 31) / 32 - m.memory.length) 0
           else m.memory,
           if n > m.size then n else m.size⟩ := by
  unfold Memory.expand
  rw [if_neg (by omega)]

theorem expand_inv {m m' : Memory} {n : Nat}
    (h : m.expand n = .ok m') :
    n ≤ MEMORY_MAX_SIZE ∧
    m'.size = max m.size n ∧
    m'.memory.length = max m.memory.length ((n + 31) / 32) ∧
    ∀ j, m'.memory.getD j 0 = m.memory.getD j 0 := by
  have hb := expand_bound h
  rw [expand_eq m n hb] at h
  have hm' := (Except.ok.inj h).symm
  subst hm'
  refine ⟨hb, ?_, by split <;> simp <;> omega, ?_⟩
  · show (if n > m.size then n else m.size) = max m.size n
    rw [Nat.max_def]
    split <;> split <;> omega
  intro j
  split
  · exact getD_append_replicate ..
  · rfl

theorem read_byte_eq (m : Memory) (a : Nat) (h1 : a < m.size)
    (h2 : a / 32 < m.memory.length) :
    m.read_byte a = .ok (byteGet (m.memory.getD (a / 32) 0) (a % 32)) := by
  unfold Memory.read_byte
  rw [if_neg (by omega), if_neg (by omega)]

theorem read_word_eq (m : Memory) (a : Nat) (h1 : a < m.size)
    (ha : a % 32 = 0) (h2 : a / 32 < m.memory.length) :
    m.read_word a = .ok (m.memory.getD (a / 32) 0) := by
  unfold Memory.read_word
  rw [if_neg (by omega), if_neg (by omega), if_neg (by omega)]

/-! ## Gas meter lemmas -/

theorem consume_gas_err (g : GasMeter) (a : Nat)
    (h : (g.gas_used + a) % U64_SIZE > g.gas_limit) :
    g.consume_gas a = (g, .error .GasLimitExceeded) := by
  unfold GasMeter.consume_gas
  rw [if_pos h]

theorem consume_gas_ok (g : GasMeter) (a : Nat)
    (h : (g.gas_used + a) % U64_SIZE ≤ g.gas_limit) :
    g.consume_gas a =
      ({ g with gas_used := (g.gas_used + a) % U64_SIZE }, .ok ()) := by
  unfold GasMeter.consume_gas
  rw [if_neg (by omega)]

theorem consume_gas_limit (g : GasMeter) (a : Nat) :
    (g.consume_gas a).1.gas_limit = g.gas_limit := by
  unfold GasMeter.consume_gas
  split <;> rfl

theorem consume_gas_invariant (g : GasMeter) (a : Nat)
    (h : g.gas_used ≤ g.gas_limit) :
    (g.consume_gas a).1.gas_used ≤ (g.consume_gas a).1.gas_limit := by
  by_cases hc : (g.gas_used + a) % U64_SIZE > g.gas_limit
  · rw [consume_gas_err g a hc]
    exact h
  · rw [consume_gas_ok g a (by omega)]
    show (g.gas_used + a) % U64_SIZE ≤ g.gas_limit
    omega

theorem consume_gas_atomic (g : GasMeter) (a : Nat) (e : GasError)
    (h : (g.consume_gas a).2 = .error e) :
    e = .GasLimitExceeded ∧ (g.consume_gas a).1 = g := by
  by_cases hc : (g.gas_used + a) % U64_SIZE > g.gas_limit
  · rw [consume_gas_err g a hc] at h ⊢
    exact ⟨(Except.error.inj h).symm, rfl⟩
  · rw [consume_gas_ok g a (by omega)] at h
    exact Except.noConfusion h

theorem runCharges_invariant (l : List Nat) (g : GasMeter)
    (h : g.gas_used ≤ g.gas_limit) :
    (runCharges g l).gas_used ≤ (runCharges g l).gas_limit ∧
    (runCharges g l).gas_limit = g.gas_limit := by
  induction l generalizing g with
  | nil => exact ⟨h, rfl⟩
  | cons a t ih =>
    obtain ⟨ha, hb⟩ := ih (g.consume_gas a).1 (consume_gas_invariant g a h)
    refine ⟨ha, ?_⟩
    show (runCharges (g.consume_gas a).1 t).gas_limit = g.gas_limit
    rw [hb, consume_gas_limit]

/-! ## Stack lemmas -/

theorem push_err (s : Stack) (v : Nat) (h : s.stack.length ≥ STACK_MAX_SIZE) :
    s.push v = (s, .error .Overflow) := by
  unfold Stack.push
  rw [if_pos h]

theorem push_ok (s : Stack) (v : Nat) (h : s.stack.length < STACK_MAX_SIZE) :
    s.push v = (⟨v :: s.stack⟩, .ok ()) := by
  unfold Stack.push
  rw [if_neg (by omega)]

theorem runStackOps_push_eq (s : Stack) (v : Nat) (t : List StackOp) :
    runStackOps s (StackOp.push v :: t) =
      match s.push v with
      | (s', Except.ok _) =>
        ((runStackOps s' t).1, (runStackOps s' t).2.1 + 1,
          (runStackOps s' t).2.2)
      | (s', Except.error _) => runStackOps s' t := rfl

theorem runStackOps_push_err (s : Stack) (v : Nat) (t : List StackOp)
    (h : s.stack.length ≥ STACK_MAX_SIZE) :
    runStackOps s (StackOp.push v :: t) = runStackOps s t := by
  rw [runStackOps_push_eq, push_err s v h]

theorem runStackOps_push_ok (s : Stack) (v : Nat) (t : List StackOp)
    (h : s.stack.length < STACK_MAX_SIZE) :
    runStackOps s (StackOp.push v :: t) =
      ((runStackOps ⟨v :: s.stack⟩ t).1,
        (runStackOps ⟨v :: s.stack⟩ t).2.1 + 1,
        (runStackOps ⟨v :: s.stack⟩ t).2.2) := by
  rw [runStackOps_push_eq, push_ok s v h]

theorem runStackOps_pop_nil (t : List StackOp) :
    runStackOps ⟨[]⟩ (StackOp.pop :: t) = runStackOps ⟨[]⟩ t := rfl

theorem runStackOps_pop_cons (v : Nat) (rest : List Nat) (t : List StackOp) :
    runStackOps ⟨v :: rest⟩ (StackOp.pop :: t) =
      ((runStackOps ⟨rest⟩ t).1, (runStackOps ⟨rest⟩ t).2.1,
        (runStackOps ⟨rest⟩ t).2.2 + 1) := rfl

theorem runStackOps_invariant (ops : List StackOp) (s : Stack)
    (h : s.len ≤ STACK_MAX_SIZE) :
    (runStackOps s ops).1.len + (runStackOps s ops).2.2
        = s.len + (runStackOps s ops).2.1 ∧
    (runStackOps s ops).2.2 ≤ s.len + (runStackOps s ops).2.1 ∧
    (runStackOps s ops).1.len ≤ STACK_MAX_SIZE := by
  induction ops generalizing s with
  | nil => exact ⟨rfl, Nat.zero_le _, h⟩
  | cons op t ih =>
    cases op with
    | push v =>
      by_cases hf : s.stack.length ≥ STACK_MAX_SIZE
      · rw [runStackOps_push_err s v t hf]
        obtain ⟨h1, h2, h3⟩ := ih s h
        exact ⟨h1, h2, h3⟩
      · rw [runStackOps_push_ok s v t (by omega)]
        obtain ⟨h1, h2, h3⟩ := ih ⟨v :: s.stack⟩
          (by simp [Stack.len] at h ⊢; omega)
        simp [Stack.len] at h1 h2 h3 h ⊢
        omega
    | pop =>
      obtain ⟨l⟩ := s
      cases l with
      | nil =>
        rw [runStackOps_pop_nil]
        obtain ⟨h1, h2, h3⟩ := ih ⟨[]⟩ h
        exact ⟨h1, h2, h3⟩
      | cons v rest =>
        rw [runStackOps_pop_cons]
        obtain ⟨h1, h2, h3⟩ := ih ⟨rest⟩
          (by simp [Stack.len] at h ⊢; omega)
        simp [Stack.len] at h1 h2 h3 h ⊢
        omega

theorem runStackOps_pushes (n : Nat) (v : Nat) (s : Stack)
    (h : s.len ≤ STACK_MAX_SIZE) :
    (runStackOps s (List.replicate n (StackOp.push v))).2.1
      = min n (STACK_MAX_SIZE - s.len) := by
  induction n generalizing s with
  | zero => simp [runStackOps]
  | succ k ih =>
    rw [List.replicate_succ]
    by_cases hf : s.stack.length ≥ STACK_MAX_SIZE
    · rw [runStackOps_push_err s v _ hf, ih s h]
      simp [Stack.len] at h ⊢
      omega
    · rw [runStackOps_push_ok s v _ (by omega)]
      show (runStackOps ⟨v :: s.stack⟩ _).2.1 + 1 = _
      rw [ih ⟨v :: s.stack⟩ (by simp [Stack.len] at h ⊢; omega)]
      simp [Stack.len] at h ⊢
      omega

/-! ## Memory invariant lemmas -/

theorem sizeInv_new : Memory.new.sizeInv := by
  simp [Memory.sizeInv, Memory.new]

theorem sizeInv_write_byte {m m' : Memory} {a v : Nat}
    (h : m.write_byte a v = .ok m') (hm : m.sizeInv) : m'.sizeInv := by
  obtain ⟨hb, hs, hl, _⟩ := write_byte_inv h
  unfold Memory.sizeInv at *
  rw [hs, hl]
  have hd := Nat.div_add_mod a 32
  have hr := Nat.mod_lt a (show 0 < 32 by norm_num)
  omega

theorem sizeInv_write_word {m m' : Memory} {a v : Nat}
    (h : m.write_word a v = .ok m') (hm : m.sizeInv) : m'.sizeInv := by
  obtain ⟨hb, ha, hs, hl, _⟩ := write_word_inv h
  unfold Memory.sizeInv at *
  rw [hs, hl]
  have hd := Nat.div_add_mod a 32
  omega

theorem sizeInv_expand {m m' : Memory} {n : Nat}
    (h : m.expand n = .ok m') (hm : m.sizeInv) : m'.sizeInv := by
  obtain ⟨hb, hs, hl, _⟩ := expand_inv h
  unfold Memory.sizeInv at *
  rw [hs, hl]
  have hd := Nat.div_add_mod (n + 31) 32
  have hr := Nat.mod_lt (n + 31) (show 0 < 32 by norm_num)
  omega

theorem sizeInv_index {m : Memory} {a : Nat} (hm : m.sizeInv)
    (ha : a < m.size) : a / 32 < m.memory.length := by
  unfold Memory.sizeInv at hm
  have hd := Nat.div_add_mod a 32
  have hr := Nat.mod_lt a (show 0 < 32 by norm_num)
  omega

theorem zeroAbove_new : Memory.new.zeroAbove := by
  intro a _
  show byteGet (([] : List Nat).getD (a / 32) 0) (a % 32) = 0
  exact byteGet_zero _

theorem zeroAbove_write_byte {m m' : Memory} {a v : Nat} (hv : v < 256)
    (h : m.write_byte a v = .ok m') (hz : m.zeroAbove) : m'.zeroAbove := by
  obtain ⟨hb, hs, hl, hg⟩ := write_byte_inv h
  intro x hx
  rw [hg]
  by_cases hj : x / 32 = a / 32
  · rw [if_pos hj]
    have hd1 := Nat.div_add_mod x 32
    have hd2 := Nat.div_add_mod a 32
    have hoff : x % 32 ≠ a % 32 := by
      intro he
      rw [hs] at hx
      omega
    rw [byteGet_byteSet_ne _ _ _ _ hv
      (Nat.mod_lt a (show 0 < 32 by norm_num))
      (Nat.mod_lt x (show 0 < 32 by norm_num)) hoff, ← hj]
    exact hz x (by rw [hs] at hx; omega)
  · rw [if_neg hj]
    exact hz x (by rw [hs] at hx; omega)

theorem zeroAbove_write_word {m m' : Memory} {a v : Nat}
    (h : m.write_word a v = .ok m') (hz : m.zeroAbove) : m'.zeroAbove := by
  obtain ⟨hb, ha, hs, hl, hg⟩ := write_word_inv h
  intro x hx
  rw [hg]
  have hd1 := Nat.div_add_mod x 32
  have hd2 := Nat.div_add_mod a 32
  have hr := Nat.mod_lt x (show 0 < 32 by norm_num)
  have hxa : x / 32 ≠ a / 32 := by
    rw [hs] at hx
    omega
  rw [if_neg hxa]
  exact hz x (by rw [hs] at hx; omega)

theorem zeroAbove_expand {m m' : Memory} {n : Nat}
    (h : m.expand n = .ok m') (hz : m.zeroAbove) : m'.zeroAbove := by
  obtain ⟨hb, hs, hl, hg⟩ := expand_inv h
  intro x hx
  rw [hg]
  exact hz x (by rw [hs] at hx; omega)

theorem expand_fresh_zero {m m' : Memory} {n : Nat}
    (h : m.expand n = .ok m') (hz : m.zeroAbove) :
    ∀ x, m.size ≤ x → x < n → m'.read_byte x = .ok 0 := by
  obtain ⟨hb, hs, hl, hg⟩ := expand_inv h
  intro x h1 h2
  have hlt : x < m'.size := by rw [hs]; omega
  have hidx : x / 32 < m'.memory.length := by
    rw [hl]
    have hd1 := Nat.div_add_mod x 32
    have hd2 := Nat.div_add_mod (n + 31) 32
    have hr1 := Nat.mod_lt x (show 0 < 32 by norm_num)
    have hr2 := Nat.mod_lt (n + 31) (show 0 < 32 by norm_num)
    omega
  rw [read_byte_eq m' x hlt hidx, hg, hz x h1]

/-! ## Claim theorems -/

/-- Claim C1 (code bug): the spec says writes fail with `OutOfBounds`
exactly when the touched byte address is at or beyond 33,554,432 bytes
(1,048,576 words), and `expand` fails only beyond that ceiling.  The code
compares byte addresses against `MEMORY_MAX_SIZE = 1048576`, a constant
its own doc comment declares to be a count of 32-byte *words*, so the
enforced ceiling is 1,048,576 *bytes*: byte address 1,048,576 — far below
33,554,432 — is already rejected, and `expand` to 1,048,577 bytes already
fails. -/
theorem mem_ceiling_units_bug :
    Memory.write_byte Memory.new (1024 * 1024) 0 = .error .OutOfBounds ∧
    Memory.write_word Memory.new (1024 * 1024) 0 = .error .OutOfBounds ∧
    Memory.expand Memory.new (1024 * 1024 + 1) = .error .ExpansionLimit ∧
    1024 * 1024 < 33554432 ∧
    1024 * 1024 + 1 ≤ 33554432 :=
  ⟨rfl, rfl, rfl, by norm_num, by norm_num⟩

/-- Claim C9 (code bug): the claim says the guard of `consume_gas` is
evaluated without `u64` overflow and an amount pushing the sum past
`u64::MAX` is rejected with `GasLimitExceeded`.  In the code the guard is
the unchecked sum `self.gas_used + amount`: with `gas_limit = 100`,
`gas_used = 50` and `amount = 2^64 - 40` the sum wraps to 10, the charge
is accepted and `gas_used` becomes 10 even though the limit is
mathematically exceeded (a debug build would panic on the overflow
instead). -/
theorem consume_gas_overflow_bug :
    ((GasMeter.new 100).consume_gas 50).1.gas_used = 50 ∧
    100 < 50 + (2 ^ 64 - 40) ∧
    ((((GasMeter.new 100).consume_gas 50).1).consume_gas (2 ^ 64 - 40)).2
      = .ok () ∧
    ((((GasMeter.new 100).consume_gas 50).1).consume_gas (2 ^ 64 - 40)).1.gas_used
      = 10 :=
  ⟨rfl, by norm_num, rfl, rfl⟩

/-- Claim C3: the SSTORE dynamic cost (as computed by
`calculate_sstore_cost`, to which `dynamic_gas_cost` dispatches its
`Sstore` arm) is 800 when `new = current`; otherwise 20000 when
`original = current = 0`, 5000 when `original = current ≠ 0`, and 800 when
`original ≠ current`; including the four literal cases of the spec. -/
theorem sstore_cost_table :
    (∀ current original new, new = current →
       GasMeter.calculate_sstore_cost current original new = 800) ∧
    (∀ current original new, new ≠ current → original = current →
       original = 0 →
       GasMeter.calculate_sstore_cost current original new = 20000) ∧
    (∀ current original new, new ≠ current → original = current →
       original ≠ 0 →
       GasMeter.calculate_sstore_cost current original new = 5000) ∧
    (∀ current original new, new ≠ current → original ≠ current →
       GasMeter.calculate_sstore_cost current original new = 800) ∧
    GasMeter.calculate_sstore_cost 0 0 42 = 20000 ∧
    GasMeter.calculate_sstore_cost 42 42 24 = 5000 ∧
    GasMeter.calculate_sstore_cost 42 42 42 = 800 ∧
    GasMeter.calculate_sstore_cost 24 42 99 = 800 := by
  refine ⟨?_, ?_, ?_, ?_, rfl, rfl, rfl, rfl⟩
  · intro c o n h
    simp [GasMeter.calculate_sstore_cost, h]
  · intro c o n h1 h2 h3
    subst h2
    subst h3
    simp [GasMeter.calculate_sstore_cost, h1]
  · intro c o n h1 h2 h3
    subst h2
    simp [GasMeter.calculate_sstore_cost, h1, h3]
  · intro c o n h1 h2
    simp [GasMeter.calculate_sstore_cost, h1, h2]

/-- Witness for C3: the table applied at concrete storage values. -/
theorem sstore_cost_table_inst :
    GasMeter.calculate_sstore_cost 7 7 7 = 800 ∧
    GasMeter.calculate_sstore_cost 0 0 1 = 20000 ∧
    GasMeter.calculate_sstore_cost 9 9 1 = 5000 ∧
    GasMeter.calculate_sstore_cost 1 2 3 = 800 :=
  ⟨sstore_cost_table.1 7 7 7 rfl,
   sstore_cost_table.2.1 0 0 1 (by decide) rfl rfl,
   sstore_cost_table.2.2.1 9 9 1 (by decide) rfl (by decide),
   sstore_cost_table.2.2.2.1 1 2 3 (by decide) (by decide)⟩

theorem specMemCost_mono {o n : Nat} (h : o ≤ n) :
    specMemCost o ≤ specMemCost n := by
  unfold specMemCost
  have hw : (o + 31) / 32 ≤ (n + 31) / 32 := Nat.div_le_div_right (by omega)
  have hsq : (o + 31) / 32 * ((o + 31) / 32) ≤ (n + 31) / 32 * ((n + 31) / 32) :=
    Nat.mul_le_mul hw hw
  have hdq := Nat.div_le_div_right (c := 512) hsq
  omega

theorem memory_expansion_cost_exact {o n : Nat} (h1 : o < n) (h2 : n < 2 ^ 32) :
    GasMeter.memory_expansion_cost o n = specMemCost n - specMemCost o := by
  have hU : U64_SIZE = 2 ^ 64 := rfl
  have hmo : (o + 31) % U64_SIZE = o + 31 := Nat.mod_eq_of_lt (by omega)
  have hmn : (n + 31) % U64_SIZE = n + 31 := Nat.mod_eq_of_lt (by omega)
  have hwo : (o + 31) / 32 ≤ 134217728 := by omega
  have hwn : (n + 31) / 32 ≤ 134217728 := by omega
  have hso : (o + 31) / 32 * ((o + 31) / 32) % U64_SIZE
      = (o + 31) / 32 * ((o + 31) / 32) :=
    Nat.mod_eq_of_lt (by
      have := Nat.mul_le_mul hwo hwo
      omega)
  have hsn : (n + 31) / 32 * ((n + 31) / 32) % U64_SIZE
      = (n + 31) / 32 * ((n + 31) / 32) :=
    Nat.mod_eq_of_lt (by
      have := Nat.mul_le_mul hwn hwn
      omega)
  simp only [GasMeter.memory_expansion_cost, specMemCost, if_neg (by omega : ¬ n ≤ o),
    hmo, hmn, hso, hsn]

/-- Counterexample for C4: the claim quantifies the expansion-cost formula
over all `old_size`, `new_size`, but the `usize` squaring of the word
count wraps: at `new_size = 2 ^ 40` the word count is `2 ^ 35`, its square
`2 ^ 70` wraps to 0 modulo `2 ^ 64`, and the function returns only the
linear term instead of the formula's value. -/
theorem mem_expansion_cost_wrap_cex :
    GasMeter.memory_expansion_cost 0 (2 ^ 40) = 103079215104 ∧
    specMemCost (2 ^ 40) - specMemCost 0 = 2305843112292909056 ∧
    GasMeter.memory_expansion_cost 0 (2 ^ 40) ≠
      specMemCost (2 ^ 40) - specMemCost 0 :=
  ⟨rfl, rfl, by decide⟩

/-- Claim C4 (amended): `Memory.gas_cost` equals `3*a + a*a/512` with
`a = ceil(size/32)` for every memory within the enforced size cap, and
`memory_expansion_cost old new` is 0 whenever `new ≤ old` (for all
arguments), and equals `C(ceil(new/32)) - C(ceil(old/32))` (a subtraction
that never underflows) whenever `old < new` and `new` is below `2 ^ 32` —
the wrap-free range, which covers every reachable memory size. -/
theorem mem_cost_formula_amended :
    (∀ m : Memory, m.size ≤ MEMORY_MAX_SIZE → m.gas_cost = specMemCost m.size) ∧
    (∀ old_size new_size, new_size ≤ old_size →
       GasMeter.memory_expansion_cost old_size new_size = 0) ∧
    (∀ old_size new_size, old_size < new_size → new_size < 2 ^ 32 →
       specMemCost old_size ≤ specMemCost new_size ∧
       GasMeter.memory_expansion_cost old_size new_size
         = specMemCost new_size - specMemCost old_size) := by
  refine ⟨?_, ?_, ?_⟩
  · intro m hm
    have hcap : MEMORY_MAX_SIZE = 1048576 := rfl
    have hU : U64_SIZE = 2 ^ 64 := rfl
    have hm1 : (m.size + 31) % U64_SIZE = m.size + 31 :=
      Nat.mod_eq_of_lt (by omega)
    have hw : (m.size + 31) / 32 ≤ 32768 := by omega
    have hm2 : (m.size + 31) / 32 * ((m.size + 31) / 32) % U64_SIZE
        = (m.size + 31) / 32 * ((m.size + 31) / 32) :=
      Nat.mod_eq_of_lt (by
        have := Nat.mul_le_mul hw hw
        omega)
    simp only [Memory.gas_cost, specMemCost, hm1, hm2]
  · intro o n h
    unfold GasMeter.memory_expansion_cost
    rw [if_pos h]
  · intro o n h1 h2
    exact ⟨specMemCost_mono (by omega), memory_expansion_cost_exact h1 h2⟩

/-- Witness for C4 (amended), applied at a fresh memory, a shrink request,
and the growth from 0 to 1001 bytes. -/
theorem mem_cost_formula_amended_inst :
    Memory.new.gas_cost = specMemCost Memory.new.size ∧
    GasMeter.memory_expansion_cost 5 3 = 0 ∧
    GasMeter.memory_expansion_cost 0 1001 = specMemCost 1001 - specMemCost 0 :=
  ⟨mem_cost_formula_amended.1 Memory.new (by decide),
   mem_cost_formula_amended.2.1 5 3 (by decide),
   (mem_cost_formula_amended.2.2 0 1001 (by decide) (by decide)).2⟩

/-- Counterexample for C2: the claim says every `consume_gas` call that
would exceed the limit returns `GasLimitExceeded` and leaves `gas_used`
unchanged.  At `gas_used = 5`, `gas_limit = 7`, `amount = 2 ^ 64 - 3` the
charge mathematically exceeds the limit, yet the unchecked `u64` guard
wraps the sum to 2 ≤ 7: the call is accepted and `gas_used` changes from
5 to 2. -/
theorem gas_would_exceed_accepted_cex :
    (7 : Nat) < 5 + (2 ^ 64 - 3) ∧
    ((GasMeter.mk 5 7 0 0 0).consume_gas (2 ^ 64 - 3)).2 = .ok () ∧
    ((GasMeter.mk 5 7 0 0 0).consume_gas (2 ^ 64 - 3)).1.gas_used = 2 ∧
    ((GasMeter.mk 5 7 0 0 0).consume_gas (2 ^ 64 - 3)).1.gas_used ≠ 5 :=
  ⟨by norm_num, rfl, rfl, by decide⟩

/-- Claim C2 (amended): after any charge, `gas_used` stays within
`gas_limit` (and the limit is untouched); a `consume_gas` call whose
`u64` sum `gas_used + amount` does not overflow and would exceed the
limit returns `GasLimitExceeded` and leaves the meter unchanged (when the
sum overflows `u64`, the wrapped sum is compared instead — the C9 bug —
and such a call can be accepted); every rejected call returns
`GasLimitExceeded` and leaves the meter unchanged; any sequence of
charges from a fresh meter keeps `gas_used ≤ gas_limit`; and
`effective_gas_used = gas_used - gas_refund` with saturating (`Nat`)
subtraction. -/
theorem gas_meter_conservation_amended :
    (∀ (g : GasMeter) (a : Nat), g.gas_used ≤ g.gas_limit →
       (g.consume_gas a).1.gas_used ≤ (g.consume_gas a).1.gas_limit ∧
       (g.consume_gas a).1.gas_limit = g.gas_limit) ∧
    (∀ (g : GasMeter) (a : Nat), g.gas_used + a < U64_SIZE →
       g.gas_limit < g.gas_used + a →
       g.consume_gas a = (g, .error .GasLimitExceeded)) ∧
    (∀ (g : GasMeter) (a : Nat) (e : GasError), (g.consume_gas a).2 = .error e →
       e = .GasLimitExceeded ∧ (g.consume_gas a).1 = g) ∧
    (∀ (gas_limit : Nat) (amounts : List Nat),
       (runCharges (GasMeter.new gas_limit) amounts).gas_used ≤ gas_limit) ∧
    (∀ g : GasMeter, g.effective_gas_used = g.gas_used - g.gas_refund) := by
  refine ⟨?_, ?_, consume_gas_atomic, ?_, fun g => rfl⟩
  · intro g a h
    exact ⟨consume_gas_invariant g a h, consume_gas_limit g a⟩
  · intro g a h1 h2
    exact consume_gas_err g a (by rw [Nat.mod_eq_of_lt h1]; omega)
  · intro L amounts
    obtain ⟨h1, h2⟩ := runCharges_invariant amounts (GasMeter.new L) (Nat.zero_le _)
    rw [h2] at h1
    exact h1

/-- Witness for C2 (amended): the invariant after a concrete charge, and
a concrete wrap-free over-limit charge rejected atomically. -/
theorem gas_meter_conservation_amended_inst :
    ((GasMeter.new 10).consume_gas 3).1.gas_used ≤
      ((GasMeter.new 10).consume_gas 3).1.gas_limit ∧
    (GasMeter.new 10).consume_gas 11 = (GasMeter.new 10, .error .GasLimitExceeded) :=
  ⟨(gas_meter_conservation_amended.1 (GasMeter.new 10) 3 (by decide)).1,
   gas_meter_conservation_amended.2.1 (GasMeter.new 10) 11 (by decide) (by decide)⟩

/-- Counterexample for C5: the claim says bytes inside a word are stored
big-endian, so after `write_word(0, 1)` the byte at address 0 should be
the most significant byte of 1, which is `1 / 2 ^ (8 * 31) % 256 = 0`.
The code returns 1: the byte at intra-word offset 0 is the *least*
significant byte. -/
theorem word_byte_order_bigendian_cex :
    Memory.write_word Memory.new 0 1 = .ok ⟨[1], 32⟩ ∧
    Memory.read_byte ⟨[1], 32⟩ 0 = .ok 1 ∧
    1 / 2 ^ (8 * (31 - 0)) % 256 = 0 ∧
    (1 : Nat) ≠ 1 / 2 ^ (8 * (31 - 0)) % 256 :=
  ⟨rfl, rfl, by norm_num, by norm_num⟩

/-- Claim C5 (amended): bytes inside each word are stored in
*little-endian* order: after a successful `write_word(a, v)`,
`read_byte(a + i)` returns the `i`-th *least* significant byte of `v`,
`v / 2 ^ (8 * i) % 256`, for every `0 ≤ i < 32`. -/
theorem word_byte_order_little_endian :
    ∀ (m m' : Memory) (a v i : Nat), m.write_word a v = .ok m' →
      v < U256_SIZE → i < 32 →
      m'.read_byte (a + i) = .ok (v / 2 ^ (8 * i) % 256) := by
  intro m m' a v i h hvU hi
  obtain ⟨hb, ha, hs, hl, hg⟩ := write_word_inv h
  have hdiv : (a + i) / 32 = a / 32 := by omega
  have hmod : (a + i) % 32 = i := by omega
  have h1 : a + i < m'.size := by rw [hs]; omega
  have h2 : (a + i) / 32 < m'.memory.length := by rw [hdiv, hl]; omega
  rw [read_byte_eq m' (a + i) h1 h2, hdiv, hmod, hg, if_pos rfl,
    byteGet_eq_div_mod]

/-- Witness for C5 (amended): writing word 258 at address 0, byte 1 reads
back `258 / 256 % 256 = 1`. -/
theorem word_byte_order_little_endian_inst :
    Memory.read_byte ⟨[258], 32⟩ (0 + 1) = .ok (258 / 2 ^ (8 * 1) % 256) :=
  word_byte_order_little_endian Memory.new ⟨[258], 32⟩ 0 258 1 rfl
    (by decide) (by decide)

/-- Claim C6: write-then-read round-trips — after a successful
`write_byte(k, v)` with a byte value `v`, `read_byte(k)` returns `v`; and
after a successful `write_word(a, w)`, `read_word(a)` returns exactly
`w`. -/
theorem mem_write_read_roundtrip :
    (∀ (m m' : Memory) (k v : Nat), v < 256 → m.write_byte k v = .ok m' →
       m'.read_byte k = .ok v) ∧
    (∀ (m m' : Memory) (a w : Nat), m.write_word a w = .ok m' →
       m'.read_word a = .ok w) := by
  constructor
  · intro m m' k v hv h
    obtain ⟨hb, hs, hl, hg⟩ := write_byte_inv h
    have h1 : k < m'.size := by rw [hs]; omega
    have h2 : k / 32 < m'.memory.length := by rw [hl]; omega
    rw [read_byte_eq m' k h1 h2, hg, if_pos rfl,
      byteGet_byteSet_self _ _ _ hv (Nat.mod_lt k (by norm_num))]
  · intro m m' a w h
    obtain ⟨hb, ha, hs, hl, hg⟩ := write_word_inv h
    have h1 : a < m'.size := by rw [hs]; omega
    have h2 : a / 32 < m'.memory.length := by rw [hl]; omega
    rw [read_word_eq m' a h1 ha h2, hg, if_pos rfl]

/-- Witness for C6 at concrete writes: byte 7 at address 3, word 258 at
address 0. -/
theorem mem_write_read_roundtrip_inst :
    Memory.read_byte ⟨[117440512], 4⟩ 3 = .ok 7 ∧
    Memory.read_word ⟨[258], 32⟩ 0 = .ok 258 :=
  ⟨mem_write_read_roundtrip.1 Memory.new ⟨[117440512], 4⟩ 3 7 (by decide) rfl,
   mem_write_read_roundtrip.2 Memory.new ⟨[258], 32⟩ 0 258 rfl⟩

/-- Claim C7: `update_memory_cost` charges exactly the incremental
expansion cost between `previous_memory_size` and `memory.size()` through
`consume_gas` (propagating `GasLimitExceeded` with the meter unchanged on
failure) and on success sets `previous_memory_size` to the new size; in
the concrete scenario — `GasMeter::new(100000)`, one byte written at
address 1000 of a fresh memory — `gas_used` ends up exactly
`memory_expansion_cost(0, 1001)` and `previous_memory_size` ends up
1001. -/
theorem update_memory_cost_spec :
    (∀ (g : GasMeter) (mem : Memory), g.gas_used < U64_SIZE →
       ((g.update_memory_cost mem).2 = .ok () →
          (g.update_memory_cost mem).1.previous_memory_size = mem.size ∧
          (g.update_memory_cost mem).1.gas_used =
            (g.gas_used +
              GasMeter.memory_expansion_cost g.previous_memory_size mem.size)
              % U64_SIZE) ∧
       (∀ e, (g.update_memory_cost mem).2 = .error e →
          e = .GasLimitExceeded ∧ (g.update_memory_cost mem).1 = g)) ∧
    mem1000.size = 1001 ∧
    ((GasMeter.new 100000).update_memory_cost mem1000).2 = .ok () ∧
    ((GasMeter.new 100000).update_memory_cost mem1000).1.gas_used =
      GasMeter.memory_expansion_cost 0 1001 ∧
    ((GasMeter.new 100000).update_memory_cost mem1000).1.previous_memory_size
      = 1001 := by
  refine ⟨?_, rfl, rfl, rfl, rfl⟩
  intro g mem hu
  simp only [GasMeter.update_memory_cost]
  by_cases hc :
      GasMeter.memory_expansion_cost g.previous_memory_size mem.size > 0
  · rw [if_pos hc]
    by_cases hg2 : (g.gas_used +
        GasMeter.memory_expansion_cost g.previous_memory_size mem.size)
        % U64_SIZE > g.gas_limit
    · rw [consume_gas_err _ _ hg2]
      constructor
      · intro hok
        exact Except.noConfusion hok
      · intro e he
        exact ⟨(Except.error.inj he).symm, rfl⟩
    · rw [consume_gas_ok _ _ (by omega)]
      constructor
      · intro _
        exact ⟨rfl, rfl⟩
      · intro e he
        exact Except.noConfusion he
  · rw [if_neg hc]
    constructor
    · intro _
      refine ⟨rfl, ?_⟩
      have hc0 :
          GasMeter.memory_expansion_cost g.previous_memory_size mem.size = 0 :=
        by omega
      show g.gas_used =
        (g.gas_used +
          GasMeter.memory_expansion_cost g.previous_memory_size mem.size)
          % U64_SIZE
      rw [hc0, Nat.add_zero, Nat.mod_eq_of_lt hu]
    · intro e he
      exact Except.noConfusion he

/-- Witness for C7's general clause at a fresh meter and fresh memory. -/
theorem update_memory_cost_spec_inst :
    ((GasMeter.new 5).update_memory_cost Memory.new).1.previous_memory_size
      = Memory.new.size :=
  ((update_memory_cost_spec.1 (GasMeter.new 5) Memory.new (by decide)).1 rfl).1

/-- Claim C8: `push` fails with `Overflow` exactly when the stack already
holds 1024 elements (and then mutates nothing); `pop` on an empty stack
fails with `Underflow` (and mutates nothing); after any operation
sequence from an empty stack, the length equals successful pushes minus
successful pops, always between 0 and 1024; and of 1025 consecutive
pushes only 1024 succeed — the 1025th fails. -/
theorem stack_discipline :
    (∀ (s : Stack) (v : Nat), s.len ≤ STACK_MAX_SIZE →
       ((s.push v).2 = .error .Overflow ↔ s.len = STACK_MAX_SIZE)) ∧
    (∀ (s : Stack) (v : Nat) (e : StackError), (s.push v).2 = .error e →
       (s.push v).1 = s ∧ e = .Overflow) ∧
    (∀ s : Stack, s.len = 0 →
       (s.pop).2 = .error .Underflow ∧ (s.pop).1 = s) ∧
    (∀ ops : List StackOp,
       (runStackOps Stack.new ops).1.len + (runStackOps Stack.new ops).2.2
           = (runStackOps Stack.new ops).2.1 ∧
       (runStackOps Stack.new ops).2.2 ≤ (runStackOps Stack.new ops).2.1 ∧
       (runStackOps Stack.new ops).1.len ≤ STACK_MAX_SIZE) ∧
    (∀ v : Nat,
       (runStackOps Stack.new
         (List.replicate (STACK_MAX_SIZE + 1) (StackOp.push v))).2.1
         = STACK_MAX_SIZE) := by
  refine ⟨?_, ?_, ?_, ?_, ?_⟩
  · intro s v h
    constructor
    · intro he
      by_contra hne
      rw [push_ok s v (by simp [Stack.len] at h hne; omega)] at he
      exact Except.noConfusion he
    · intro he
      rw [push_err s v (by simp [Stack.len] at he; omega)]
  · intro s v e he
    by_cases hf : s.stack.length ≥ STACK_MAX_SIZE
    · rw [push_err s v hf] at he ⊢
      exact ⟨rfl, (Except.error.inj he).symm⟩
    · rw [push_ok s v (by omega)] at he
      exact Except.noConfusion he
  · intro s h
    obtain ⟨l⟩ := s
    cases l with
    | nil => exact ⟨rfl, rfl⟩
    | cons a t => simp [Stack.len] at h
  · intro ops
    have h := runStackOps_invariant ops Stack.new (by decide)
    simpa [Stack.len, Stack.new] using h
  · intro v
    rw [runStackOps_pushes (STACK_MAX_SIZE + 1) v Stack.new (by decide)]
    decide

/-- Witness for C8 at an empty stack: the overflow criterion and the
underflow failure. -/
theorem stack_discipline_inst :
    ((Stack.new.push 7).2 = .error .Overflow ↔ Stack.new.len = STACK_MAX_SIZE) ∧
    (Stack.new.pop.2 = .error .Underflow ∧ Stack.new.pop.1 = Stack.new) :=
  ⟨stack_discipline.1 Stack.new 7 (by decide),
   stack_discipline.2.2.1 Stack.new rfl⟩

/-- Claim C10: every memory operation preserves the representation
invariant `size ≤ 32 * memory.length`, and under it a read of any address
below `size` cannot hit the secondary `word_index ≥ memory.len()` bounds
check: `read_byte` (and aligned `read_word`) succeed outright. -/
theorem memory_word_capacity_invariant :
    Memory.new.sizeInv ∧
    (∀ (m m' : Memory) (a v : Nat), m.sizeInv →
       m.write_byte a v = .ok m' → m'.sizeInv) ∧
    (∀ (m m' : Memory) (a v : Nat), m.sizeInv →
       m.write_word a v = .ok m' → m'.sizeInv) ∧
    (∀ (m m' : Memory) (n : Nat), m.sizeInv →
       m.expand n = .ok m' → m'.sizeInv) ∧
    (∀ (m : Memory) (a : Nat), m.sizeInv → a < m.size →
       a / 32 < m.memory.length ∧
       m.read_byte a = .ok (byteGet (m.memory.getD (a / 32) 0) (a % 32))) ∧
    (∀ (m : Memory) (a : Nat), m.sizeInv → a < m.size → a % 32 = 0 →
       m.read_word a = .ok (m.memory.getD (a / 32) 0)) := by
  refine ⟨sizeInv_new, ?_, ?_, ?_, ?_, ?_⟩
  · intro m m' a v hm h
    exact sizeInv_write_byte h hm
  · intro m m' a v hm h
    exact sizeInv_write_word h hm
  · intro m m' n hm h
    exact sizeInv_expand h hm
  · intro m a hm ha
    have hidx := sizeInv_index hm ha
    exact ⟨hidx, read_byte_eq m a ha hidx⟩
  · intro m a hm ha hal
    exact read_word_eq m a ha hal (sizeInv_index hm ha)

/-- Witness for C10 at a one-word memory of size 4. -/
theorem memory_word_capacity_invariant_inst :
    (3 : Nat) / 32 < (Memory.mk [117440512] 4).memory.length ∧
    (Memory.mk [117440512] 4).read_byte 3 =
      .ok (byteGet ((Memory.mk [117440512] 4).memory.getD (3 / 32) 0)
        (3 % 32)) :=
  memory_word_capacity_invariant.2.2.2.2.1 (Memory.mk [117440512] 4) 3
    (by unfold Memory.sizeInv; decide) (by decide)
